import Mathlib

/-!
# Verification of the warpy WebAssembly (version 0xc) interpreter

A shallow embedding of `warpy.py` (module decoder pre-pass, linear memory,
LEB128 reader, and the `run_code_v12` execution engine) together with
theorems settling the frozen claims about it.

Conventions of the embedding:

* Python lists used as stacks (`append`/`pop` at the end) are modelled as
  Lean `List`s with the *top at the head* (`push = cons`, `pop = head`),
  so Python's `xs[-1-n]` is the Lean index `n` from the head.
* Python's arbitrary-precision `int` is `Int` (bitwise `&`, `|`, shifts on
  negative numbers follow two's-complement semantics in both languages);
  byte values are `Nat`.
* Fallible operations return `Except Err α`; every `raise`, failing
  `assert`, `IndexError` and `KeyError` site of the source has its own
  `Err` constructor (see `Err`).
* Python floats are out of scope per the spec (§1): the engine never
  computes with them, so an `F32`/`F64` value carries a symbolic
  `FloatVal` — either the little-endian IEEE bit pattern it was read from
  (`read_F32`/`read_F64`) or the integer it was converted from
  (`f64.convert_s/i64`).  No modelled operation inspects the payload
  except Python truthiness, which is decidable on this representation.
* Loops of the source whose progress variable is the reader position are
  given an explicit fuel argument; fuel exhaustion is a distinguished
  error (`Err.outOfFuel`) that never occurs when the fuel is at least the
  number of remaining positions.
-/

namespace Warpy

/-- The seven value-type byte codes of `VALUE_TYPE` plus the `Empty` form
used by `BLOCK_TYPE` signatures; mirrors the `ValueType` class hierarchy. -/
inductive ValueKind where
  | i32
  | i64
  | f32
  | f64
  | anyfunc
  | funcref
  | emptyBlockType
  | empty
deriving DecidableEq, Repr

/-- Symbolic representation of a Python float held by an `F32`/`F64`
value: either the raw little-endian bit pattern it was unpacked from, or
the exact integer it was converted from.  (IEEE semantics are out of
scope per spec §1; the engine never does float arithmetic.) -/
inductive FloatVal where
  | ofBits (bits : Nat)
  | ofInt (i : Int)
deriving DecidableEq, Repr

/-- The tagged runtime values `I32`/`I64`/`F32`/`F64` of the source. -/
inductive Value where
  | I32 (val : Int)
  | I64 (val : Int)
  | F32 (val : FloatVal)
  | F64 (val : FloatVal)
deriving DecidableEq, Repr

/-- The static type tag (`TYPE_NAME`) of a value. -/
def Value.kind : Value → ValueKind
  | .I32 _ => .i32
  | .I64 _ => .i64
  | .F32 _ => .f32
  | .F64 _ => .f64

/-- Python truthiness of `val` for each tagged value (`if cond.val:`).
For floats, a bit pattern is falsy exactly when it encodes `±0.0`; a
converted integer is falsy exactly when the integer is zero. -/
def Value.truthy : Value → Bool
  | .I32 v => v != 0
  | .I64 v => v != 0
  | .F32 (.ofBits b) => !(b == 0 || b == 0x80000000)
  | .F32 (.ofInt i) => i != 0
  | .F64 (.ofBits b) => !(b == 0 || b == 0x8000000000000000)
  | .F64 (.ofInt i) => i != 0

/-- A function signature (`Type` in the source): index, form, parameter
kinds and result kinds. -/
structure FuncType where
  index : Int
  form : ValueKind
  params : List ValueKind
  results : List ValueKind
deriving DecidableEq, Repr

/-- The three `Code` subclasses of the source: `Block` (kind is the block
opcode as a Python int, `-1` reserved for the function case of
`find_blocks`), `Function`, and `FunctionImport`. -/
inductive Code where
  | block (kind : Int) (type : FuncType) (locals : List ValueKind)
      (start fin label_addr : Nat)
  | func (type : FuncType) (index : Nat) (locals : List ValueKind)
      (start fin label_addr : Nat)
  | funcImport (type : FuncType) (module field : String)
deriving DecidableEq, Repr

/-- `type` attribute, present on all three `Code` subclasses. -/
def Code.type : Code → FuncType
  | .block _ t _ _ _ _ => t
  | .func t _ _ _ _ _ => t
  | .funcImport t _ _ => t

/-- `label_addr` attribute of a `Block` or `Function`. -/
def Code.labelAddr : Code → Option Nat
  | .block _ _ _ _ _ l => some l
  | .func _ _ _ _ _ l => some l
  | .funcImport _ _ _ => none

/-- Every `raise`, failing `assert`, `IndexError` and `KeyError` site of
the modelled source, plus `outOfFuel` for the fuel discipline of embedded
loops. -/
inductive Err where
  /-- Python `IndexError`: list subscript or `pop` on an empty list. -/
  | indexOutOfRange
  /-- Python `KeyError`: missing dictionary key (`block_map`,
  `OPERATOR_INFO`, `BLOCK_TYPE`, `BLOCK_NAMES`). -/
  | keyError
  /-- `read_LEB`: "Unsigned LEB ... overflow". -/
  | lebOverflow
  /-- `run_code_v12` opcode 0x00: "Immediate trap". -/
  | unreachable
  /-- The various "... unimplemented" raises. -/
  | unimplemented (what : String)
  /-- `run_code_v12` fallthrough: "unrecognized opcode". -/
  | badOpcode
  /-- `end` handler: "stack underflow". -/
  | stackUnderflow
  /-- `end` handler: "multiple return values unimplemented". -/
  | multiValue
  /-- `call` handler "call signature mismatch" and the `call_setup`
  assert "Call signature mismatch". -/
  | callSignature
  /-- `end` handler assert `isinstance(res, t.results[0])`. -/
  | resultSignature
  /-- Operand asserts `isinstance(a, I32)` etc. of the arithmetic ops. -/
  | operandKind
  /-- Python `ZeroDivisionError` from `a.val / b.val`. -/
  | divideByZero
  /-- Import-call "return signature mismatch". -/
  | returnSignature
  /-- Python `AttributeError` (attribute access on the wrong class). -/
  | attributeError
  /-- `find_blocks` assert "else not matched with if". -/
  | elseNotMatchedWithIf
  /-- `find_blocks` assert "function block did not end with 0xf". -/
  | functionNotEnded
  /-- `call_setup`: "invalid locals signature". -/
  | invalidLocals
  /-- `do_branch` assert `len(self.sigstack) > 0`. -/
  | branchUnderflow
  /-- `return` handler assert `len(self.sigstack) > 0`. -/
  | returnUnderflow
  /-- Other failing `assert` (e.g. the `read_bytes` count positivity). -/
  | assertFail
  /-- Fuel exhaustion of an embedded loop (never occurs for adequate
  fuel; not a behaviour of the source). -/
  | outOfFuel
deriving DecidableEq, Repr

/-! ## Linear memory (`bytes2uint32`, `bytes2uint64`, class `Memory`)

Memory contents are Python ints (`write_byte` stores unchecked values),
so memory is `List Int`.  Python slices clamp instead of failing, so a
slice is `drop`/`take`; the subsequent subscripts `b[0]`..`b[3]` are
where an `IndexError` can arise. -/

/-- Python slice `bytes[pos:pos+cnt]` (clamping, never failing). -/
def pySlice (bytes : List Int) (pos cnt : Nat) : List Int :=
  (bytes.drop pos).take cnt

/-- Python `x << k` on an arbitrary-precision int is exact multiplication
by `2^k` (for every sign of `x`). -/
def shl (x : Int) (k : Nat) : Int := x * 2 ^ k

/-- Python `x & (2^hi - 2^lo) >> lo` (mask a bit range, then shift it
down) on an arbitrary-precision int: under two's complement this is
`(x mod 2^hi) / 2^lo` (the mask result is non-negative, so the shift is
plain division). -/
def maskShift (x : Int) (hi lo : Nat) : Int := x.emod (2 ^ hi) / 2 ^ lo

/-- `bytes2uint32(b)`: `(b[3]<<24) + (b[2]<<16) + (b[1]<<8) + b[0]`;
`IndexError` when `b` has fewer than four elements. -/
def bytes2uint32 (b : List Int) : Except Err Int :=
  match b with
  | b0 :: b1 :: b2 :: b3 :: _ =>
      .ok (shl b3 24 + shl b2 16 + shl b1 8 + b0)
  | _ => .error .indexOutOfRange

/-- `bytes2uint64(b)`: the eight-byte little-endian variant. -/
def bytes2uint64 (b : List Int) : Except Err Int :=
  match b with
  | b0 :: b1 :: b2 :: b3 :: b4 :: b5 :: b6 :: b7 :: _ =>
      .ok (shl b7 56 + shl b6 48 + shl b5 40 + shl b4 32 +
           shl b3 24 + shl b2 16 + shl b1 8 + b0)
  | _ => .error .indexOutOfRange

namespace Memory

/-- `Memory.__init__(pages, bytes)`: pad the initial bytes with zeros to
`pages * 2^16` entries. -/
def init (pages : Nat) (bytes : List Int) : List Int :=
  bytes ++ List.replicate (pages * 2 ^ 16 - bytes.length) 0

/-- Python list assignment `bytes[pos] = val` (`IndexError` out of
range). -/
def setByte (bytes : List Int) (pos : Nat) (val : Int) :
    Except Err (List Int) :=
  if pos < bytes.length then .ok (bytes.set pos val)
  else .error .indexOutOfRange

/-- `Memory.read_byte(pos)`. -/
def read_byte (bytes : List Int) (pos : Nat) : Except Err Int :=
  match bytes.get? pos with
  | some b => .ok b
  | none => .error .indexOutOfRange

/-- `Memory.write_byte(pos, val)`. -/
def write_byte (bytes : List Int) (pos : Nat) (val : Int) :
    Except Err (List Int) :=
  setByte bytes pos val

/-- `Memory.read_I32(pos)`: `bytes2uint32(self.bytes[pos:pos+4])`. -/
def read_I32 (bytes : List Int) (pos : Nat) : Except Err Int :=
  bytes2uint32 (pySlice bytes pos 4)

/-- `Memory.read_I64(pos)`: the source delegates to `bytes2uint32` on an
eight-byte slice, so only the low four bytes are read. -/
def read_I64 (bytes : List Int) (pos : Nat) : Except Err Int :=
  bytes2uint32 (pySlice bytes pos 8)

/-- `Memory.write_I32(pos, val)`: four little-endian byte stores,
`self.bytes[pos+i] = (val & (0xff << 8i)) >> 8i`. -/
def write_I32 (bytes : List Int) (pos : Nat) (val : Int) :
    Except Err (List Int) := do
  let b ← setByte bytes pos (maskShift val 8 0)
  let b ← setByte b (pos + 1) (maskShift val 16 8)
  let b ← setByte b (pos + 2) (maskShift val 24 16)
  let b ← setByte b (pos + 3) (maskShift val 32 24)
  .ok b

/-- `Memory.write_I64(pos, val)`: eight little-endian byte stores,
`self.bytes[pos+i] = (val & (0xff << 8i)) >> 8i`. -/
def write_I64 (bytes : List Int) (pos : Nat) (val : Int) :
    Except Err (List Int) := do
  let b ← setByte bytes pos (maskShift val 8 0)
  let b ← setByte b (pos + 1) (maskShift val 16 8)
  let b ← setByte b (pos + 2) (maskShift val 24 16)
  let b ← setByte b (pos + 3) (maskShift val 32 24)
  let b ← setByte b (pos + 4) (maskShift val 40 32)
  let b ← setByte b (pos + 5) (maskShift val 48 40)
  let b ← setByte b (pos + 6) (maskShift val 56 48)
  let b ← setByte b (pos + 7) (maskShift val 64 56)
  .ok b

end Memory

/-! ## Byte reader (class `Reader`)

The module data is a byte string (`[ord(b) for b in data]`), so the
reader's buffer is a `List Nat`.  The reader itself is just the buffer
plus a cursor; the embedding passes `(bytes, pos)` explicitly and
returns the new cursor. -/

/-- Bit `i` of a non-negative Python int: the value of `(b >> i) & 1`. -/
def natBit (b i : Nat) : Nat := b / 2 ^ i % 2

namespace Reader

/-- `Reader.read_byte()`: `IndexError` past the end. -/
def read_byte (bytes : List Nat) (pos : Nat) : Except Err (Nat × Nat) :=
  match bytes.get? pos with
  | some b => .ok (b, pos + 1)
  | none => .error .indexOutOfRange

/-- `Reader.read_bytes(cnt)`: Python slice (clamping), cursor advances by
`cnt` regardless; `assert cnt > 0`. -/
def read_bytes (bytes : List Nat) (pos cnt : Nat) :
    Except Err (List Nat × Nat) :=
  if cnt = 0 then .error .assertFail
  else .ok ((bytes.drop pos).take cnt, pos + cnt)

/-- `Reader.read_word()`: four-byte little-endian word (a short slice at
the end of the buffer is an `IndexError` inside `bytes2uint32`). -/
def read_word (bytes : List Nat) (pos : Nat) : Except Err (Int × Nat) := do
  let w ← bytes2uint32 (((bytes.drop pos).take 4).map Int.ofNat)
  .ok (w, pos + 4)

/-- `Reader.read_F32()`: read four bytes, reinterpret the little-endian
bit pattern (the IEEE unpacking itself is out of scope, so the bits are
kept). -/
def read_F32 (bytes : List Nat) (pos : Nat) :
    Except Err (FloatVal × Nat) := do
  let (bs, pos) ← read_bytes bytes pos 4
  let bits ← bytes2uint32 (bs.map Int.ofNat)
  .ok (.ofBits bits.toNat, pos)

/-- `Reader.read_F64()`: read eight bytes, reinterpret the little-endian
bit pattern. -/
def read_F64 (bytes : List Nat) (pos : Nat) :
    Except Err (FloatVal × Nat) := do
  let (bs, pos) ← read_bytes bytes pos 8
  let bits ← bytes2uint64 (bs.map Int.ofNat)
  .ok (.ofBits bits.toNat, pos)

/-- The `while True` loop of `Reader.read_LEB`.  Accumulator `result`
holds the payload bits gathered so far (always `< 2^shift`, so the
source's `result |= (byte & 0x7f) << shift` — an OR of disjoint bit
ranges — is the addition below).  The source counts continuation bytes
up in `bcnt`, raising the LEB overflow when `bcnt` exceeds
`bound = ceil(maxbits/7)`; the embedding counts the *remaining* allowed
continuation bytes down in `rm = bound - bcnt` (the same check,
structurally decreasing).  Returns `(result, last byte, shift, new
pos)`. -/
def readLEBLoop (bytes : List Nat) : Nat → Nat → Nat → Nat →
    Except Err (Nat × Nat × Nat × Nat)
  | rm, pos, shift, result =>
    match bytes.get? pos with
    | none => .error .indexOutOfRange
    | some byte =>
      let result := result + byte % 0x80 * 2 ^ shift
      if natBit byte 7 = 0 then
        .ok (result, byte, shift, pos + 1)
      else
        match rm with
        | 0 => .error .lebOverflow
        | rm + 1 => readLEBLoop bytes rm (pos + 1) (shift + 7) result

/-- `Reader.read_LEB(maxbits, signed)`.  After the loop, the signed
variant sign-extends when the final byte's `0x40` bit is set and
`shift < maxbits`: the source's `result |= -(1 << shift)` keeps the low
`shift` bits of `result` and sets every higher bit, i.e. it equals
`(result % 2^shift) - 2^shift`. -/
def read_LEB (bytes : List Nat) (pos maxbits : Nat) (signed : Bool) :
    Except Err (Int × Nat) := do
  let (result, byte, shift, pos) ←
    readLEBLoop bytes ((maxbits + 6) / 7) pos 0 0
  if signed ∧ shift < maxbits ∧ natBit byte 6 = 1 then
    .ok (((result % 2 ^ shift : Nat) : Int) - 2 ^ shift, pos)
  else
    .ok ((result : Int), pos)

/-- `read_LEB` at an unsigned call site (`signed=False` leaves the
accumulated payload unchanged, a natural number). -/
def read_LEB_u (bytes : List Nat) (pos maxbits : Nat) :
    Except Err (Nat × Nat) := do
  let (result, _, _, pos) ←
    readLEBLoop bytes ((maxbits + 6) / 7) pos 0 0
  .ok (result, pos)

end Reader

/-! ## Opcode table (`OPERATOR_INFO`) and `drop_immediates` -/

/-- The immediate descriptors appearing in `OPERATOR_INFO`. -/
inductive ImmKind where
  | varint32
  | varuint32
  | varint64
  | varuint64
  | uint32
  | uint64
  | inlineSignatureType
  | memoryImmediate
  | brTable
  | noImm
deriving DecidableEq, Repr

/-- `OPERATOR_INFO[opcode][1]`: `none` when the opcode is not a key of
the table (a `KeyError` at the lookup site). -/
def operatorImm (op : Nat) : Option ImmKind :=
  if op = 0x00 then some .noImm
  else if 0x01 ≤ op ∧ op ≤ 0x03 then some .inlineSignatureType
  else if op = 0x04 ∨ op = 0x05 then some .noImm
  else if op = 0x06 ∨ op = 0x07 then some .varuint32
  else if op = 0x08 then some .brTable
  else if op = 0x09 ∨ op = 0x0a ∨ op = 0x0b ∨ op = 0x0f then some .noImm
  else if op = 0x10 then some .varint32
  else if op = 0x11 then some .varint64
  else if op = 0x12 then some .uint64
  else if op = 0x13 then some .uint32
  else if op = 0x14 ∨ op = 0x15 ∨ op = 0x16 ∨ op = 0x17 ∨ op = 0x19 then
    some .varuint32
  else if op = 0xbb ∨ op = 0xbc then some .varuint32
  else if 0x20 ≤ op ∧ op ≤ 0x36 then some .memoryImmediate
  else if op = 0x39 ∨ op = 0x3b then some .noImm
  else if 0x40 ≤ op ∧ op ≤ 0xba then some .noImm
  else none

/-- `BLOCK_TYPE[code]`: the five fixed block signatures; `none` is the
`KeyError` for an unknown inline signature byte. -/
def blockTypeTable (code : Nat) : Option FuncType :=
  if code = 0x00 then some ⟨-1, .empty, [], []⟩
  else if code = 0x01 then some ⟨-1, .empty, [], [.i32]⟩
  else if code = 0x02 then some ⟨-1, .empty, [], [.i64]⟩
  else if code = 0x03 then some ⟨-1, .empty, [], [.f32]⟩
  else if code = 0x04 then some ⟨-1, .empty, [], [.f64]⟩
  else none

/-- The `for i in range(count)` loop of the `br_table` immediate skip:
`count` further LEB reads. -/
def dropLEBs (bytes : List Nat) : Nat → Nat → Except Err Nat
  | pos, 0 => .ok pos
  | pos, n + 1 => do
    let (_, pos) ← Reader.read_LEB_u bytes pos 32
    dropLEBs bytes pos n

/-- `drop_immediates(rdr, opcode)`: advance the cursor past the
immediates of `opcode` (a `KeyError` when the opcode is not in
`OPERATOR_INFO`). -/
def drop_immediates (bytes : List Nat) (pos : Nat) (opcode : Nat) :
    Except Err Nat := do
  match operatorImm opcode with
  | none => .error .keyError
  | some .varint32 | some .varuint32 => do
      let (_, pos) ← Reader.read_LEB_u bytes pos 32
      .ok pos
  | some .varint64 | some .varuint64 => do
      let (_, pos) ← Reader.read_LEB_u bytes pos 64
      .ok pos
  | some .uint32 => do
      let (_, pos) ← Reader.read_bytes bytes pos 4
      .ok pos
  | some .uint64 => do
      let (_, pos) ← Reader.read_bytes bytes pos 8
      .ok pos
  | some .inlineSignatureType => do
      let (_, pos) ← Reader.read_byte bytes pos
      .ok pos
  | some .memoryImmediate => do
      let (_, pos) ← Reader.read_LEB_u bytes pos 32
      let (_, pos) ← Reader.read_LEB_u bytes pos 32
      .ok pos
  | some .brTable => do
      let (count, pos) ← Reader.read_LEB_u bytes pos 32
      let pos ← dropLEBs bytes pos count
      let (_, pos) ← Reader.read_LEB_u bytes pos 32
      .ok pos
  | some .noImm => .ok pos

/-! ## Control-flow pre-pass (`Module.find_blocks`)

Pass A gathers `block_start_map : start -> (opcode, signature, end)` (an
association list with unique keys, matching the Python dict) and
`block_end_map` (its key set); both passes walk positions strictly
forward, so a fuel of `end + 2` dominates the iteration count. -/

/-- One open entry of Pass A's working stack: `(opcode, signature,
start offset)`; the opcode is kept as a Python int. -/
abbrev OpenBlock := Int × FuncType × Nat

/-- A recorded `block_start_map` entry: `start -> (opcode, signature,
end offset)`. -/
abbrev BlockEntry := Nat × Int × FuncType × Nat

/-- Pass A of `find_blocks` (the first `while rdr.pos <= end` loop):
match structured-control opcodes and record the two maps.  `lastOpcode`
holds the most recently read opcode for the terminating assert
`opcode == 0xf`. -/
def passA (bytes : List Nat) (fin : Nat) :
    Nat → Nat → List OpenBlock → List BlockEntry → List Nat → Nat →
    Except Err (List BlockEntry × List Nat)
  | fuel, pos, opstack, bsm, bem, lastOpcode =>
    if pos > fin then
      -- loop condition fails: `assert opcode == 0xf`
      if lastOpcode = 0x0f then .ok (bsm, bem)
      else .error .functionNotEnded
    else
      match fuel with
      | 0 => .error .outOfFuel
      | fuel + 1 => do
        let (opcode, pos1) ← Reader.read_byte bytes pos
        if 0x01 ≤ opcode ∧ opcode ≤ 0x03 then do
          -- block, loop, if: read the inline signature byte, push
          let (bt, pos2) ← Reader.read_byte bytes pos1
          match blockTypeTable bt with
          | none => .error .keyError
          | some sig =>
              passA bytes fin fuel pos2 ((opcode, sig, pos) :: opstack)
                bsm bem opcode
        else if opcode = 0x04 then
          -- else: end of the if, start of a new open entry
          match opstack with
          | [] => .error .indexOutOfRange
          | (bo, bs, bstart) :: rest =>
              if bo = 0x03 then
                passA bytes fin fuel pos1 ((0x04, bs, pos) :: rest)
                  ((bstart, bo, bs, pos) :: bsm) (pos :: bem) opcode
              else .error .elseNotMatchedWithIf
        else if opcode = 0x0f then
          -- end: terminate at the function end, otherwise pop and record
          if pos = fin then .ok (bsm, bem)
          else
            match opstack with
            | [] => .error .indexOutOfRange
            | (bo, bs, bstart) :: rest =>
                passA bytes fin fuel pos1 rest
                  ((bstart, bo, bs, pos) :: bsm) (pos :: bem) opcode
        else do
          let pos2 ← drop_immediates bytes pos1 opcode
          passA bytes fin fuel pos2 opstack bsm bem opcode

/-- Block materialization (the `for start, (kind, sig, end) in
block_start_map.items()` loop): a `loop` labels its start, an `else`
runs `block.update(block.end)` (the source comment reads "label at
else"), a `block` or `if` labels one past its end, and the reserved
kind `-1` yields the function itself. -/
def makeBlock (func : Code) (start : Nat) (kind : Int) (sig : FuncType)
    (fin : Nat) : Code :=
  if kind = -1 then func
  else if kind = 0x02 then .block kind sig [] start fin start
  else if kind = 0x04 then .block kind sig [] start fin fin
  else .block kind sig [] start fin (fin + 1)

/-- Insert into an association list with Python-dict overwrite semantics
(lookup returns the most recent insertion). -/
def insertAssoc (m : List (Nat × Code)) (k : Nat) (v : Code) :
    List (Nat × Code) := (k, v) :: m

/-- The `for c in range(target_count)` loop of Pass B: read each branch
depth, resolve `blockstack[-1-depth]` and record it in the branch map
under the branch instruction's offset. -/
def passBTargets (bytes : List Nat) (origin : Nat) :
    Nat → Nat → List Code → List (Nat × Code) →
    Except Err (List (Nat × Code) × Nat)
  | 0, pos, _, branchMap => .ok (branchMap, pos)
  | n + 1, pos, blockstack, branchMap => do
    let (depth, pos) ← Reader.read_LEB_u bytes pos 32
    match blockstack.get? depth with
    | none => .error .indexOutOfRange
    | some block =>
        passBTargets bytes origin n pos blockstack
          (insertAssoc branchMap origin block)

/-- Pass B of `find_blocks` (the `while rdr.pos < end` loop): maintain a
stack of open blocks keyed by the recorded start/end offsets and resolve
every `br`/`br_if`/`br_table` depth to a target block. -/
def passB (bytes : List Nat) (fin : Nat)
    (bsm : List BlockEntry) (bem : List Nat)
    (blockMap : List (Nat × Code)) :
    Nat → Nat → List Code → List (Nat × Code) →
    Except Err (List (Nat × Code))
  | fuel, pos, blockstack, branchMap =>
    if pos ≥ fin then .ok branchMap
    else
      match fuel with
      | 0 => .error .outOfFuel
      | fuel + 1 => do
        let (opcode, pos1) ← Reader.read_byte bytes pos
        if (bsm.lookup pos).isSome then
          match blockMap.lookup pos with
          | none => .error .keyError
          | some block => do
              let pos2 ← drop_immediates bytes pos1 opcode
              passB bytes fin bsm bem blockMap fuel pos2
                (block :: blockstack) branchMap
        else if pos ∈ bem then
          match blockstack with
          | [] => .error .indexOutOfRange
          | _ :: rest => do
              let pos2 ← drop_immediates bytes pos1 opcode
              passB bytes fin bsm bem blockMap fuel pos2 rest branchMap
        else if 0x06 ≤ opcode ∧ opcode ≤ 0x08 then do
          let (targetCount, pos2) ←
            if opcode = 0x08 then do
              let (c, p) ← Reader.read_LEB_u bytes pos1 32
              Except.ok (c + 1, p)
            else Except.ok (1, pos1)
          let (branchMap, pos3) ←
            passBTargets bytes pos targetCount pos2 blockstack branchMap
          -- `continue`: the immediates were already consumed
          passB bytes fin bsm bem blockMap fuel pos3 blockstack branchMap
        else do
          let pos2 ← drop_immediates bytes pos1 opcode
          passB bytes fin bsm bem blockMap fuel pos2 blockstack branchMap

/-- `Module.find_blocks(func, start, end)`: run Pass A, materialize the
blocks into the module's block map, then run Pass B to fill the branch
map.  Returns the updated `(block_map, branch_map)`. -/
def find_blocks (bytes : List Nat) (blockMap branchMap : List (Nat × Code))
    (func : Code) (start fin : Nat) :
    Except Err (List (Nat × Code) × List (Nat × Code)) := do
  let (bsm, bem) ← passA bytes fin (fin + 2) start [] [] [] 0
  let blockMap := bsm.foldl
    (fun m e => insertAssoc m e.1 (makeBlock func e.1 e.2.1 e.2.2.1 e.2.2.2))
    blockMap
  let branchMap ← passB bytes fin bsm bem blockMap (fin + 2) start [] branchMap
  .ok (blockMap, branchMap)

/-- `Function.update(locals, start, end)`: record the body extent and set
`label_addr = end`. -/
def functionUpdate (f : Code) (locals : List ValueKind) (start fin : Nat) :
    Code :=
  match f with
  | .func t idx _ _ _ _ => .func t idx locals start fin fin
  | other => other

/-! ## Execution engine (`Module.run_code_v12` and helpers)

The engine's context (module data that the dispatch loop reads but never
writes) is the code bytes, the function table and the block map; the
mutable state is the cursor plus the four stacks.  One iteration of the
dispatch loop is `step`; the loop itself is `run_code_v12` below. -/

/-- The read-only module data consulted by the dispatch loop. -/
structure Ctx where
  bytes : List Nat
  functions : List Code
  blockMap : List (Nat × Code)
deriving DecidableEq, Repr

/-- The mutable execution state: reader cursor and the four stacks
(operand, local, return-address, signature), each with its top at the
head. -/
structure Machine where
  pos : Nat
  stack : List Value
  localstack : List Value
  returnstack : List Nat
  sigstack : List Code
deriving DecidableEq, Repr

/-- Outcome of one iteration of the dispatch loop: continue, return from
`run_code_v12` with a result, hand off to the host import callback (out
of scope per spec §4.7: the state at the handoff is recorded), or raise. -/
inductive StepResult where
  | ok (m : Machine)
  | done (res : Option Value)
  | hostCall (module field : String) (args : List Value) (m : Machine)
  | err (e : Err)
deriving DecidableEq, Repr

/-- Whether `sig_repr` can format this entry: a `Block` looks its kind up
in `BLOCK_NAMES` (keys 0–3, so an `else` block of kind 4 is a
`KeyError`); `Function` and `FunctionImport` always format.  `dump_stacks`
evaluates this for every signature-stack entry on every iteration. -/
def sigReprOk : Code → Bool
  | .block k _ _ _ _ _ => k == 0 || k == 1 || k == 2 || k == 3
  | _ => true

/-- `isinstance(c, Block)`. -/
def Code.isBlock : Code → Bool
  | .block _ _ _ _ _ _ => true
  | _ => false

/-- `isinstance(c, Function)`. -/
def Code.isFunction : Code → Bool
  | .func _ _ _ _ _ _ => true
  | _ => false

/-- `c.locals` (`AttributeError` on a `FunctionImport`). -/
def codeLocals : Code → Except Err (List ValueKind)
  | .block _ _ l _ _ _ => .ok l
  | .func _ _ l _ _ _ => .ok l
  | .funcImport _ _ _ => .error .attributeError

/-- `c.start` (`AttributeError` on a `FunctionImport`). -/
def codeStart : Code → Except Err Nat
  | .block _ _ _ s _ _ => .ok s
  | .func _ _ _ s _ _ => .ok s
  | .funcImport _ _ _ => .error .attributeError

/-- Pop `n` entries off the local stack one at a time (`IndexError` when
fewer than `n` remain). -/
def popLocals (ls : List Value) (n : Nat) : Except Err (List Value) :=
  if n ≤ ls.length then .ok (ls.drop n) else .error .indexOutOfRange

/-- The `for r in range(depth+1)` loop of `do_branch`: starting from the
already-popped `block`, pop that block's `|params|+|locals|` local
entries, and while levels remain pop the next signature entry.  Returns
the final block, the remaining signature stack and local stack. -/
def doBranchLoop : Code → List Code → List Value → Nat →
    Except Err (Code × List Code × List Value)
  | block, sigrest, ls, 0 => do
    let lcl ← codeLocals block
    let ls ← popLocals ls (block.type.params.length + lcl.length)
    .ok (block, sigrest, ls)
  | block, sigrest, ls, d + 1 => do
    let lcl ← codeLocals block
    let ls ← popLocals ls (block.type.params.length + lcl.length)
    match sigrest with
    | [] => .error .indexOutOfRange
    | b2 :: rest => doBranchLoop b2 rest ls d

/-- `Module.do_branch(depth)`: unwind `depth+1` signature levels and jump
to the final block's `label_addr`; a final block that is not a `Block`
raises "br* in function unimplemented". -/
def do_branch (m : Machine) (depth : Nat) : Except Err Machine :=
  match m.sigstack with
  | [] => .error .branchUnderflow
  | block :: sigrest => do
    let (fin, sigrest, ls) ← doBranchLoop block sigrest m.localstack depth
    match fin with
    | .block _ _ _ _ _ lab =>
        .ok { m with pos := lab, sigstack := sigrest, localstack := ls }
    | _ => .error (.unimplemented "br* in function")

/-- The argument-popping loop of the `call` handler: for each declared
parameter kind in order, pop one operand and require its tag to equal
that kind, collecting the arguments in pop order. -/
def popArgs : List ValueKind → List Value →
    Except Err (List Value × List Value)
  | [], stack => .ok ([], stack)
  | _ :: _, [] =>
      -- the pop itself fails before the kind comparison
      .error .indexOutOfRange
  | p :: ps, v :: rest =>
      if p = v.kind then do
        let (args, stack) ← popArgs ps rest
        .ok (v :: args, stack)
      else .error .callSignature

/-- The zero-initialized local for a declared kind (`I32(0)`, `I64(0)`,
`F32(0.0)`, `F64(0.0)`; anything else is "invalid locals signature"). -/
def zeroLocal : ValueKind → Except Err Value
  | .i32 => .ok (.I32 0)
  | .i64 => .ok (.I64 0)
  | .f32 => .ok (.F32 (.ofInt 0))
  | .f64 => .ok (.F64 (.ofInt 0))
  | _ => .error .invalidLocals

/-- Zero locals for a declaration list; `call_setup` pushes them in
reverse declaration order, so (top at the head) the result is the
elementwise image of the declarations. -/
def zeroLocals : List ValueKind → Except Err (List Value)
  | [] => .ok []
  | k :: ks => do
    let v ← zeroLocal k
    let vs ← zeroLocals ks
    .ok (v :: vs)

/-- The argument-pushing loop of `call_setup` (`idx` walking the
parameter kinds backwards while `aidx` walks the pop-order arguments
forwards): driven by the reversed parameter list, each step asserts
`PType.TYPE_NAME == val.TYPE_NAME` and pushes. -/
def pushArgs : List ValueKind → List Value → List Value →
    Except Err (List Value)
  | [], _, ls => .ok ls
  | p :: psRev, v :: args, ls =>
      if p = v.kind then pushArgs psRev args (v :: ls)
      else .error .callSignature
  | _ :: _, [], _ => .error .indexOutOfRange

/-- `Module.call_setup(fidx, args)`: push the function on the signature
stack, push the current cursor on the return-address stack, move the
cursor to the function start, then push zeroed locals (reverse
declaration order) and the arguments (reverse parameter order, each
re-checked against its parameter kind). -/
def call_setup (ctx : Ctx) (m : Machine) (fidx : Nat) (args : List Value) :
    Except Err Machine := do
  match ctx.functions.get? fidx with
  | none => .error .indexOutOfRange
  | some func => do
    let t := func.type
    let lcl ← codeLocals func
    let fstart ← codeStart func
    let zeros ← zeroLocals lcl
    let ls ← pushArgs t.params.reverse args (zeros ++ m.localstack)
    .ok { m with
          pos := fstart
          sigstack := func :: m.sigstack
          returnstack := m.pos :: m.returnstack
          localstack := ls }

/-- The `while` loop of the `return` handler: pop `Block` entries (and
their locals) until a `Function` is on top or the signature stack is
empty. -/
def returnLoop : List Code → List Value →
    Except Err (List Code × List Value)
  | [], ls => .ok ([], ls)
  | blk :: rest, ls =>
      if blk.isFunction then .ok (blk :: rest, ls)
      else do
        let lcl ← codeLocals blk
        let ls2 ← popLocals ls (blk.type.params.length + lcl.length)
        returnLoop rest ls2

/-- One iteration of the `run_code_v12` dispatch loop.  The iteration
begins with `dump_stacks()` (whose `sig_repr` formatting is evaluated
even though tracing is off, raising `KeyError` on a signature-stack
entry whose Block kind is outside `BLOCK_NAMES`), reads the opcode, and
evaluates the eager `trace` argument `OPERATOR_INFO[opcode][0]`
(`KeyError` for an opcode missing from the table) before dispatching. -/
def step (ctx : Ctx) (m : Machine) : StepResult :=
  if !m.sigstack.all sigReprOk then .err .keyError else
  match Reader.read_byte ctx.bytes m.pos with
  | .error e => .err e
  | .ok (opcode, pos1) =>
  if (operatorImm opcode).isNone then .err .keyError else
  if opcode = 0x00 then  -- unreachable
    .err .unreachable
  else if opcode = 0x01 ∨ opcode = 0x02 then  -- block, loop
    match Reader.read_LEB_u ctx.bytes pos1 32 with
    | .error e => .err e
    | .ok (_, pos2) =>
      match ctx.blockMap.lookup m.pos with
      | none => .err .keyError
      | some block =>
          -- trace formats sig_repr(block)
          if !sigReprOk block then .err .keyError
          else .ok { m with pos := pos2, sigstack := block :: m.sigstack }
  else if opcode = 0x03 then  -- if
    match Reader.read_LEB_u ctx.bytes pos1 32 with
    | .error e => .err e
    | .ok (_, pos2) =>
      match ctx.blockMap.lookup m.pos with
      | none => .err .keyError
      | some block =>
        match block with
        | .block _ _ _ _ _ lab =>
          match m.stack with
          | [] => .err .indexOutOfRange
          | cond :: stack1 =>
            if cond.truthy then
              -- push the if block and fall through (trace formats it)
              if !sigReprOk block then .err .keyError
              else .ok { m with pos := pos2, stack := stack1,
                                sigstack := block :: m.sigstack }
            else
              -- condition false: branch to else (if `label_addr` is an
              -- else block in the map) or to after the end
              match ctx.blockMap.lookup lab with
              | some (.block k2 _ _ _ _ _) =>
                  if k2 = 0x04 then
                    -- pop if, push else — but the handler's closing
                    -- trace then formats the else block, whose kind 4
                    -- is not in BLOCK_NAMES: the step dies in KeyError
                    .err .keyError
                  else
                    if !sigReprOk block then .err .keyError
                    else .ok { m with pos := lab, stack := stack1 }
              | some _ =>
                  -- `.kind` on a non-Block entry
                  .err .attributeError
              | none =>
                  if !sigReprOk block then .err .keyError
                  else .ok { m with pos := lab, stack := stack1 }
        | _ =>
          .err .assertFail  -- assert isinstance(block, Block)
  else if opcode = 0x05 then  -- select
    .err (.unimplemented "select")
  else if opcode = 0x06 then  -- br
    match Reader.read_LEB_u ctx.bytes pos1 32 with
    | .error e => .err e
    | .ok (depth, pos2) =>
      match do_branch { m with pos := pos2 } depth with
      | .ok m2 => .ok m2
      | .error e => .err e
  else if opcode = 0x07 then  -- br_if
    match Reader.read_LEB_u ctx.bytes pos1 32 with
    | .error e => .err e
    | .ok (depth, pos2) =>
      match m.stack with
      | [] => .err .indexOutOfRange
      | cond :: stack1 =>
        if cond.truthy then
          match do_branch { m with pos := pos2, stack := stack1 } depth with
          | .ok m2 => .ok m2
          | .error e => .err e
        else .ok { m with pos := pos2, stack := stack1 }
  else if opcode = 0x08 then  -- br_table
    .err (.unimplemented "br_table")
  else if opcode = 0x09 then  -- return
    match returnLoop m.sigstack m.localstack with
    | .error e => .err e
    | .ok ([], _) => .err .returnUnderflow  -- assert len(sigstack) > 0
    | .ok (blk :: rest, ls) =>
      match blk with
      | .func _ _ _ _ _ lab =>
          .ok { m with pos := lab, localstack := ls,
                       sigstack := blk :: rest }
      | _ => .err .assertFail  -- assert isinstance(block, Function)
  else if opcode = 0x0a then  -- nop
    .ok { m with pos := pos1 }
  else if opcode = 0x0b then  -- drop (trace peeks at stack[-1] first)
    match m.stack with
    | [] => .err .indexOutOfRange
    | _ :: rest => .ok { m with pos := pos1, stack := rest }
  else if opcode = 0x0f ∨ opcode = 0x04 then  -- end (and else)
    match m.sigstack with
    | [] => .err .indexOutOfRange
    | block :: sigrest =>
      -- trace("of %s" % sig_repr(block))
      if !sigReprOk block then .err .keyError
      else
        match codeLocals block with
        | .error e => .err e
        | .ok lcl =>
          let t := block.type
          -- get and validate the return value if there is one
          let resStack : Except Err (Option Value × List Value) :=
            if m.stack.length ≥ t.results.length then
              match t.results with
              | [] => .ok (none, m.stack)
              | [rk] =>
                match m.stack with
                | [] => .error .indexOutOfRange
                | v :: s1 =>
                    if v.kind = rk then .ok (some v, s1)
                    else .error .resultSignature
              | _ => .error .multiValue
            else .error .stackUnderflow
          match resStack with
          | .error e => .err e
          | .ok (res, s1) =>
            match popLocals m.localstack (t.params.length + lcl.length) with
            | .error e => .err e
            | .ok ls2 =>
              if block.isFunction then
                match m.returnstack with
                | [] => .err .indexOutOfRange
                | r :: rs =>
                  if rs = [] then
                    -- return to top level, ignoring the return address
                    .done res
                  else
                    .ok { m with
                          pos := r
                          stack := (match res with
                                    | some v => v :: s1
                                    | none => s1)
                          localstack := ls2
                          returnstack := rs
                          sigstack := sigrest }
              else
                -- end of block/loop/if/else: keep going
                .ok { m with pos := pos1, stack := s1,
                             localstack := ls2, sigstack := sigrest }
  else if opcode = 0x10 then  -- i32.const
    match Reader.read_LEB ctx.bytes pos1 32 true with
    | .error e => .err e
    | .ok (v, pos2) => .ok { m with pos := pos2, stack := .I32 v :: m.stack }
  else if opcode = 0x11 then  -- i64.const
    match Reader.read_LEB ctx.bytes pos1 64 true with
    | .error e => .err e
    | .ok (v, pos2) => .ok { m with pos := pos2, stack := .I64 v :: m.stack }
  else if opcode = 0x12 then  -- f64.const
    match Reader.read_F64 ctx.bytes pos1 with
    | .error e => .err e
    | .ok (fv, pos2) => .ok { m with pos := pos2, stack := .F64 fv :: m.stack }
  else if opcode = 0x13 then  -- f32.const
    match Reader.read_F32 ctx.bytes pos1 with
    | .error e => .err e
    | .ok (fv, pos2) => .ok { m with pos := pos2, stack := .F32 fv :: m.stack }
  else if opcode = 0x14 then  -- get_local
    match Reader.read_LEB_u ctx.bytes pos1 32 with
    | .error e => .err e
    | .ok (n, pos2) =>
      match m.localstack.get? n with
      | some v => .ok { m with pos := pos2, stack := v :: m.stack }
      | none => .err .indexOutOfRange
  else if opcode = 0x15 then  -- set_local
    match Reader.read_LEB_u ctx.bytes pos1 32 with
    | .error e => .err e
    | .ok (n, pos2) =>
      match m.stack with
      | [] => .err .indexOutOfRange
      | v :: s1 =>
        if n < m.localstack.length then
          .ok { m with pos := pos2, stack := s1,
                       localstack := m.localstack.set n v }
        else .err .indexOutOfRange
  else if opcode = 0x19 then  -- tee_local
    match Reader.read_LEB_u ctx.bytes pos1 32 with
    | .error e => .err e
    | .ok (n, pos2) =>
      match m.stack with
      | [] => .err .indexOutOfRange
      | v :: _ =>
        if n < m.localstack.length then
          .ok { m with pos := pos2, localstack := m.localstack.set n v }
        else .err .indexOutOfRange
  else if opcode = 0xbb then  -- get_global
    .err (.unimplemented "get_global")
  else if opcode = 0xbc then  -- set_global
    .err (.unimplemented "set_global")
  else if opcode = 0x16 then  -- call
    match Reader.read_LEB_u ctx.bytes pos1 32 with
    | .error e => .err e
    | .ok (fidx, pos2) =>
      match ctx.functions.get? fidx with
      | none => .err .indexOutOfRange
      | some func =>
        match popArgs func.type.params m.stack with
        | .error e => .err e
        | .ok (args, stack1) =>
          match func with
          | .funcImport _ md fld =>
              .hostCall md fld args { m with pos := pos2, stack := stack1 }
          | .func _ _ _ _ _ _ =>
              match call_setup ctx { m with pos := pos2, stack := stack1 }
                  fidx args with
              | .ok m2 => .ok m2
              | .error e => .err e
          | .block _ _ _ _ _ _ =>
              -- neither isinstance test matches: fall through silently
              .ok { m with pos := pos2, stack := stack1 }
  else if opcode = 0x17 then  -- call_indirect
    .err (.unimplemented "call_indirect")
  else if 0x20 ≤ opcode ∧ opcode ≤ 0x36 then  -- memory immediates
    .err (.unimplemented "memory immediates")
  else if opcode = 0x3b then  -- current_memory
    .err (.unimplemented "current_memory")
  else if opcode = 0x39 then  -- grow_memory
    .err (.unimplemented "grow_memory")
  else if (0x40 ≤ opcode ∧ opcode ≤ 0x5a) ∨ opcode = 0xb6 ∨ opcode = 0xb7
  then  -- i32 operations: pop b then a
    match m.stack with
    | b :: a :: stack2 =>
      match a, b with
      | .I32 av, .I32 bv =>
        let res : Except Err Value :=
          if opcode = 0x40 then .ok (.I32 (av + bv))        -- i32.add
          else if opcode = 0x41 then .ok (.I32 (av - bv))   -- i32.sub
          else if opcode = 0x42 then .ok (.I32 (av * bv))   -- i32.mul
          else if opcode = 0x4d then                        -- i32.eq
            .ok (.I32 (if av = bv then 1 else 0))
          else if opcode = 0x4e then                        -- i32.ne
            .ok (.I32 (if av = bv then 0 else 1))
          else if opcode = 0x4f then                        -- i32.lt_s
            .ok (.I32 (if av < bv then 1 else 0))
          else .error (.unimplemented "i32 operation")
        match res with
        | .ok v => .ok { m with pos := pos1, stack := v :: stack2 }
        | .error e => .err e
      | _, _ => .err .operandKind
    | _ => .err .indexOutOfRange
  else if (0x5b ≤ opcode ∧ opcode ≤ 0x74) ∨ opcode = 0xb8 ∨ opcode = 0xb9 ∨
      opcode = 0xba then  -- i64 operations: pop b then a
    match m.stack with
    | b :: a :: stack2 =>
      match a, b with
      | .I64 av, .I64 bv =>
        let res : Except Err Value :=
          if opcode = 0x5b then .ok (.I64 (av + bv))        -- i64.add
          else if opcode = 0x5c then .ok (.I64 (av - bv))   -- i64.sub
          else if opcode = 0x5d then .ok (.I64 (av * bv))   -- i64.mul
          else if opcode = 0x5e then                        -- i64.div_s
            -- Python 2 `/` on ints is flooring division
            if bv = 0 then .error .divideByZero
            else .ok (.I64 (av.fdiv bv))
          else if opcode = 0x6e then                        -- i64.gt_s
            .ok (.I32 (if bv < av then 1 else 0))
          else .error (.unimplemented "i64 operation")
        match res with
        | .ok v => .ok { m with pos := pos1, stack := v :: stack2 }
        | .error e => .err e
      | _, _ => .err .operandKind
    | _ => .err .indexOutOfRange
  else if 0x75 ≤ opcode ∧ opcode ≤ 0x88 then  -- f32 operations
    .err (.unimplemented "f32 ops")
  else if 0x89 ≤ opcode ∧ opcode ≤ 0x9c then  -- f64 operations
    .err (.unimplemented "f64 ops")
  else if opcode = 0xa6 then  -- i64.extend_s/i32
    match m.stack with
    | [] => .err .indexOutOfRange
    | a :: stack1 =>
      match a with
      | .I32 av => .ok { m with pos := pos1, stack := .I64 av :: stack1 }
      | _ => .err .operandKind
  else if opcode = 0xb0 then  -- f64.convert_s/i64
    match m.stack with
    | [] => .err .indexOutOfRange
    | a :: stack1 =>
      match a with
      | .I64 av =>
          .ok { m with pos := pos1, stack := .F64 (.ofInt av) :: stack1 }
      | _ => .err .operandKind
  else
    .err .badOpcode

/-- The first check of `read_LEB`'s loop on the byte at `p`: the byte
exists and its continuation bit (`byte & 0x80`) is set. -/
def isContByte (bytes : List Nat) (p : Nat) : Bool :=
  match bytes.get? p with
  | some b => decide (natBit b 7 ≠ 0)
  | none => false

/-- The `n` bytes from `pos` on all exist and are continuation bytes. -/
def allCont (bytes : List Nat) : Nat → Nat → Bool
  | _, 0 => true
  | pos, n + 1 => isContByte bytes pos && allCont bytes (pos + 1) n

/-- A LEB value terminates at offset `k` from `pos`: `k` continuation
bytes followed by an existing byte with a clear continuation bit. -/
def termAt (bytes : List Nat) (pos k : Nat) : Bool :=
  allCont bytes pos k &&
    (match bytes.get? (pos + k) with
     | some b => decide (natBit b 7 = 0)
     | none => false)

/-- Outcome of the whole dispatch loop. -/
inductive RunResult where
  | value (res : Option Value)
  | host (module field : String) (args : List Value) (m : Machine)
  | err (e : Err)
  | fuelOut
deriving DecidableEq, Repr

/-- `Module.run_code_v12()`: iterate `step` while the reader is not at
end of file (falling off the end returns `None`); a host-import handoff
stops the modelled run. -/
def run_code_v12 (ctx : Ctx) : Nat → Machine → RunResult
  | 0, _ => .fuelOut
  | fuel + 1, m =>
    if m.pos ≥ ctx.bytes.length then .value none
    else
      match step ctx m with
      | .ok m2 => run_code_v12 ctx fuel m2
      | .done res => .value res
      | .hostCall md fld args m2 => .host md fld args m2
      | .err e => .err e

/-! ## Concrete fixtures used by the theorems

A small function body `if (empty) nop else nop end end` (bytes
`03 00 0a 04 0a 0f 0f`, body start 0, function end 6; the `else` sits
at offset 3, its matching `end` at offset 5), and a one-result
function for exercising the function-terminating `end`. -/

/-- The empty block signature `BLOCK_TYPE[0x00]`. -/
def emptyBlockSig : FuncType := ⟨-1, .empty, [], []⟩

/-- Function body `if (empty) nop else nop end end`. -/
def ifElseBody : List Nat := [0x03, 0x00, 0x0a, 0x04, 0x0a, 0x0f, 0x0f]

/-- The enclosing function (`Function.update`d with start 0, end 6). -/
def ifElseFunc : Code := .func ⟨0, .funcref, [], []⟩ 0 [] 0 6 6

/-- The block map the pre-pass produces for `ifElseBody` (stated
explicitly; the C3 theorem proves `find_blocks` computes exactly this). -/
def ifElseBlockMap : List (Nat × Code) :=
  [(0, .block 0x03 emptyBlockSig [] 0 3 4),
   (3, .block 0x04 emptyBlockSig [] 3 5 5)]

/-- The engine context for `ifElseBody` with the block map produced by
the pre-pass. -/
def ifElseCtx : Ctx := ⟨ifElseBody, [ifElseFunc], ifElseBlockMap⟩

/-- A one-result function for the C6 witness: `() → i32`, no locals,
body just the terminating `end`. -/
def c6Func : Code := .func ⟨0, .funcref, [], [.i32]⟩ 0 [] 0 0 0

/-! ## Theorems

### C1: the `read_I64`/`write_I64` round trip -/

/-- Dropping `pos` elements after the eight stores of `write_I64`
exposes exactly the eight stored bytes. -/
theorem set8_drop (l : List Int) (pos : Nat) (c0 c1 c2 c3 c4 c5 c6 c7 : Int)
    (h : pos + 8 ≤ l.length) :
    ((((((((l.set pos c0).set (pos + 1) c1).set (pos + 2) c2).set
        (pos + 3) c3).set (pos + 4) c4).set (pos + 5) c5).set
        (pos + 6) c6).set (pos + 7) c7).drop pos =
      c0 :: c1 :: c2 :: c3 :: c4 :: c5 :: c6 :: c7 :: l.drop (pos + 8) := by
  induction pos generalizing l with
  | zero =>
    match l, h with
    | x0 :: x1 :: x2 :: x3 :: x4 :: x5 :: x6 :: x7 :: rest, _ => rfl
  | succ p ih =>
    match l, h with
    | x :: xs, h =>
      have h2 : p + 8 ≤ xs.length := by
        simp only [List.length_cons] at h
        omega
      have e1 : p + 1 + 1 = p + 1 + 1 := rfl
      have : ∀ i : Nat, p + 1 + i = (p + i) + 1 := by omega
      simp only [this, List.set_cons_succ, List.drop_succ_cons]
      exact ih xs h2

/-- `write_I64` succeeds on an in-range address and yields the eight
little-endian byte stores. -/
theorem write_I64_ok (bytes : List Int) (pos : Nat) (v : Int)
    (h : pos + 8 ≤ bytes.length) :
    Memory.write_I64 bytes pos v =
      .ok ((((((((bytes.set pos (maskShift v 8 0)).set (pos + 1)
        (maskShift v 16 8)).set (pos + 2) (maskShift v 24 16)).set
        (pos + 3) (maskShift v 32 24)).set (pos + 4)
        (maskShift v 40 32)).set (pos + 5) (maskShift v 48 40)).set
        (pos + 6) (maskShift v 56 48)).set (pos + 7)
        (maskShift v 64 56)) := by
  have h0 : pos < bytes.length := by omega
  simp [Memory.write_I64, Memory.setByte, List.length_set, bind,
    Except.bind, h0,
    show pos + 1 < bytes.length by omega,
    show pos + 2 < bytes.length by omega,
    show pos + 3 < bytes.length by omega,
    show pos + 4 < bytes.length by omega,
    show pos + 5 < bytes.length by omega,
    show pos + 6 < bytes.length by omega,
    show pos + 7 < bytes.length by omega]

/-- What `read_I64` actually returns after a `write_I64` at the same
in-range address: only the low 32 bits of the written value (the
delegation to `bytes2uint32` reads four bytes of the eight-byte slice). -/
theorem read_I64_after_write_I64 (bytes : List Int) (pos : Nat) (v : Int)
    (h : pos + 8 ≤ bytes.length) :
    (Memory.write_I64 bytes pos v).bind (fun b => Memory.read_I64 b pos) =
      .ok (v.emod (2 ^ 32)) := by
  rw [write_I64_ok bytes pos v h]
  show Memory.read_I64 _ pos = _
  rw [Memory.read_I64, pySlice, set8_drop _ _ _ _ _ _ _ _ _ _ (by
    simpa [List.length_set] using h)]
  show Except.ok _ = _
  refine congrArg Except.ok ?_
  show shl (maskShift v 32 24) 24 + shl (maskShift v 24 16) 16 +
    shl (maskShift v 16 8) 8 + maskShift v 8 0 = v.emod (2 ^ 32)
  simp only [shl, maskShift]
  have h1 : v.emod (2 ^ 32) % 2 ^ 24 = v.emod (2 ^ 24) :=
    Int.emod_emod_of_dvd v (by norm_num)
  have h2 : v.emod (2 ^ 24) % 2 ^ 16 = v.emod (2 ^ 16) :=
    Int.emod_emod_of_dvd v (by norm_num)
  have h3 : v.emod (2 ^ 16) % 2 ^ 8 = v.emod (2 ^ 8) :=
    Int.emod_emod_of_dvd v (by norm_num)
  norm_num at h1 h2 h3 ⊢
  omega

/-- C1: the claim asserts the full eight-byte round trip
`read_I64(a)` after `write_I64(a, v)` returns `v` for every I64 value.
The source's `read_I64` delegates to `bytes2uint32`, so it reads only
four bytes: at address 0 of the default one-page memory, writing
`v = 2^32` and reading back yields `0`, not `2^32` (the spec's design
notes themselves flag this as a source bug and mandate the eight-byte
read). -/
theorem c1_read_I64_after_write_I64_truncates :
    (Memory.write_I64 (Memory.init 1 []) 0 4294967296).bind
      (fun b => Memory.read_I64 b 0) = .ok 0 := by
  have hlen : (Memory.init 1 []).length = 65536 := by
    rw [Memory.init, List.nil_append, List.length_replicate]
    norm_num
  rw [read_I64_after_write_I64 _ _ _ (by omega)]
  norm_num

/-! ### C3: `label_addr` assignment by the pre-pass

A concrete function body exercising every materialization case:
`if / else / end` — bytes `03 00 0a 04 0a 0f 0f`, body start 0, function
end 6 (the `else` sits at offset 3, its matching `end` at offset 5). -/

/-- C3: the claim says every Block's `label_addr` is determined by its
kind with *an else's `label_addr` equal to the else's own offset (its
start)*.  On the `if/else/end` body, the pre-pass gives the `if` Block
(start 0, end 3 = the else offset) label 4 = end+1 as claimed, but the
`else` Block (start 3, end 5) receives label 5 — its *end* offset
(`block.update(block.end)`), not its own offset 3, contradicting the
claim (and the source's own "label at else" comment).  `Function.update`
does set the function's label to its end. -/
theorem c3_else_label_addr_is_end :
    find_blocks ifElseBody [] [] ifElseFunc 0 6 =
        .ok (ifElseBlockMap, []) ∧
      (List.lookup 3 ifElseBlockMap).bind Code.labelAddr = some 5 ∧
      functionUpdate (.func ⟨0, .funcref, [], []⟩ 0 [] 0 0 0) [] 0 6 =
        ifElseFunc := by
  exact ⟨rfl, rfl, rfl⟩

/-! ### C2: `if` with a paired `else` -/

/-- C2 counterexample: the claim says that on a zero condition the
engine pushes the paired else Block onto the signature stack.  On the
concrete `if/else/end` body (block map exactly as the pre-pass builds
it, first conjunct), executing the `if` at offset 0 with condition
`I32(0)` leaves the signature stack untouched (`[function]`, no else
Block pushed) and merely jumps to offset 4 — one past the `else`
opcode — because the else-push branch probes the block map at
`label_addr = 4` while the else Block is keyed at 3. -/
theorem c2_if_zero_does_not_push_else :
    find_blocks ifElseBody [] [] ifElseFunc 0 6 =
        .ok (ifElseBlockMap, []) ∧
      step ifElseCtx ⟨0, [.I32 0], [], [42], [ifElseFunc]⟩ =
        .ok ⟨4, [], [], [42], [ifElseFunc]⟩ := by
  exact ⟨rfl, rfl⟩

/-- C2 amended: executing `if` (opcode 0x03) whose Block the pre-pass
recorded at the instruction's offset, when `label_addr` is not a key of
the block map (the generic situation for a paired else, whose Block is
keyed at the else offset while `label_addr` is one past it): a nonzero
condition pushes the if Block and falls through; a zero condition
pushes *nothing* and sets the reader position to `label_addr`, the start
of the else body. -/
theorem c2_if_dispatch (ctx : Ctx) (m : Machine) (cond : Value)
    (rest : List Value) (k : Int) (t : FuncType) (l : List ValueKind)
    (s f lab bt pos2 : Nat)
    (hsig : m.sigstack.all sigReprOk = true)
    (hb : ctx.bytes.get? m.pos = some 0x03)
    (hleb : Reader.read_LEB_u ctx.bytes (m.pos + 1) 32 = .ok (bt, pos2))
    (hblk : ctx.blockMap.lookup m.pos = some (.block k t l s f lab))
    (hk : sigReprOk (.block k t l s f lab) = true)
    (htgt : ctx.blockMap.lookup lab = none)
    (hstack : m.stack = cond :: rest) :
    step ctx m =
      if cond.truthy then
        .ok { m with pos := pos2, stack := rest,
                     sigstack := .block k t l s f lab :: m.sigstack }
      else
        .ok { m with pos := lab, stack := rest } := by
  rw [step, hsig]
  simp only [Bool.not_true, Bool.false_eq_true, if_false]
  rw [Reader.read_byte, hb]
  simp only [step, Reader.read_byte, hb, hleb, hblk, htgt, hstack, hk]
  norm_num [operatorImm]

/-- C2 amended, witness: the dispatch theorem applied to the concrete
`if/else` context with a zero condition. -/
theorem c2_if_dispatch_witness :
    step ifElseCtx ⟨0, [.I32 0], [], [42], [ifElseFunc]⟩ =
      .ok ⟨4, [], [], [42], [ifElseFunc]⟩ := by
  have h := c2_if_dispatch ifElseCtx ⟨0, [.I32 0], [], [42], [ifElseFunc]⟩
    (.I32 0) [] 0x03 emptyBlockSig [] 0 3 4 0 2
    rfl rfl rfl rfl rfl rfl rfl
  simpa [Value.truthy] using h

/-! ### C5: i32 arithmetic -/

/-- C5 counterexample: the claim says `i32.add` pushes the mathematical
result reduced into `[-2^31, 2^31)`.  Adding `2^31 - 1` and `1` pushes
`I32(2^31)` — the unreduced sum, which lies outside that range (the
claimed value would be `-2^31`). -/
theorem c5_i32_add_does_not_wrap :
    step ⟨[0x40], [], []⟩ ⟨0, [.I32 1, .I32 2147483647], [], [], []⟩ =
        .ok ⟨1, [.I32 2147483648], [], [], []⟩ ∧
      ¬(-(2 ^ 31) ≤ (2147483648 : Int) ∧ (2147483648 : Int) < 2 ^ 31) := by
  exact ⟨rfl, by norm_num⟩

/-- C5 amended: `i32.add`, `i32.sub` and `i32.mul` pop `b` then `a`
(both must be `I32`) and push `I32` of the *exact* integer result
`a + b`, `a - b`, `a * b` — no two's-complement reduction is applied. -/
theorem c5_i32_arith_exact (ctx : Ctx) (m : Machine) (op : Nat)
    (av bv : Int) (rest : List Value)
    (hsig : m.sigstack.all sigReprOk = true)
    (hb : ctx.bytes.get? m.pos = some op)
    (hop : op = 0x40 ∨ op = 0x41 ∨ op = 0x42)
    (hstack : m.stack = .I32 bv :: .I32 av :: rest) :
    step ctx m =
      .ok { m with
            pos := m.pos + 1
            stack := .I32 (if op = 0x40 then av + bv
                           else if op = 0x41 then av - bv
                           else av * bv) :: rest } := by
  rw [step, hsig]
  simp only [Bool.not_true, Bool.false_eq_true, if_false]
  rw [Reader.read_byte, hb]
  rcases hop with rfl | rfl | rfl <;>
    simp [operatorImm, hstack]

/-- C5 amended, witness: `i32.sub` on `I32(3)` and `I32(10)` pushes
`I32(-7)` exactly. -/
theorem c5_i32_arith_exact_witness :
    step ⟨[0x41], [], []⟩ ⟨0, [.I32 10, .I32 3], [], [], []⟩ =
      .ok ⟨1, [.I32 (-7)], [], [], []⟩ := by
  have h := c5_i32_arith_exact ⟨[0x41], [], []⟩
    ⟨0, [.I32 10, .I32 3], [], [], []⟩ 0x41 3 10 []
    rfl rfl (Or.inr (Or.inl rfl)) rfl
  norm_num at h
  exact h

/-! ### C7 and C9: `i64.div_s` -/

/-- C7: `i64.div_s` with two `I64` operands traps with the divide-by-zero
error exactly when the popped divisor `b` is zero; with a nonzero
divisor it pushes an `I64` quotient and continues. -/
theorem c7_i64_div_s_zero_traps (ctx : Ctx) (m : Machine)
    (av bv : Int) (rest : List Value)
    (hsig : m.sigstack.all sigReprOk = true)
    (hb : ctx.bytes.get? m.pos = some 0x5e)
    (hstack : m.stack = .I64 bv :: .I64 av :: rest) :
    (bv = 0 → step ctx m = .err .divideByZero) ∧
      (bv ≠ 0 → step ctx m =
        .ok { m with
              pos := m.pos + 1
              stack := .I64 (av.fdiv bv) :: rest }) := by
  constructor
  · intro h0
    subst h0
    rw [step, hsig]
    simp only [Bool.not_true, Bool.false_eq_true, if_false]
    rw [Reader.read_byte, hb]
    simp [operatorImm, hstack]
  · intro hne
    rw [step, hsig]
    simp only [Bool.not_true, Bool.false_eq_true, if_false]
    rw [Reader.read_byte, hb]
    simp [operatorImm, hstack, hne]

/-- C7 witness: dividing `I64(7)` by `I64(0)` traps; dividing by
`I64(2)` pushes `I64(3)`. -/
theorem c7_i64_div_s_zero_traps_witness :
    step ⟨[0x5e], [], []⟩ ⟨0, [.I64 0, .I64 7], [], [], []⟩ =
        .err .divideByZero ∧
      step ⟨[0x5e], [], []⟩ ⟨0, [.I64 2, .I64 7], [], [], []⟩ =
        .ok ⟨1, [.I64 3], [], [], []⟩ := by
  constructor
  · exact (c7_i64_div_s_zero_traps ⟨[0x5e], [], []⟩
      ⟨0, [.I64 0, .I64 7], [], [], []⟩ 7 0 [] rfl rfl rfl).1 rfl
  · have h := (c7_i64_div_s_zero_traps ⟨[0x5e], [], []⟩
      ⟨0, [.I64 2, .I64 7], [], [], []⟩ 7 2 [] rfl rfl rfl).2
      (by norm_num)
    simpa using h

/-- `Int.fdiv` of a negative divisor equals `Int.fdiv` of the negated
pair (both compute the floor of the same rational). -/
theorem fdiv_neg_neg (a : Int) (n : Nat) :
    a.fdiv (Int.negSucc n) = (-a).fdiv (-(Int.negSucc n)) := by
  cases a with
  | ofNat k =>
    cases k with
    | zero => rfl
    | succ m => rfl
  | negSucc m => rfl

/-- `Int.fdiv a b` with `0 < b` is the floor of the rational `a / b`. -/
theorem fdiv_eq_floor_of_pos (a b : Int) (hb : 0 < b) :
    a.fdiv b = ⌊(a : ℚ) / (b : ℚ)⌋ := by
  rw [Int.fdiv_eq_ediv a hb.le]
  have h2 := Rat.floor_intCast_div_natCast a b.toNat
  have hcast : ((b.toNat : ℕ) : ℚ) = (b : ℚ) := by
    rw [← Int.cast_natCast, Int.toNat_of_nonneg hb.le]
  rw [hcast, Int.toNat_of_nonneg hb.le] at h2
  exact h2.symm

/-- `Int.fdiv a b` with `b ≠ 0` is the floor of the rational `a / b`. -/
theorem fdiv_eq_floor (a b : Int) (hb : b ≠ 0) :
    a.fdiv b = ⌊(a : ℚ) / (b : ℚ)⌋ := by
  rcases lt_trichotomy b 0 with hneg | rfl | hpos
  · cases b with
    | ofNat k =>
      have h2 : (k : Int) < 0 := hneg
      omega
    | negSucc n =>
      rw [fdiv_neg_neg a n, fdiv_eq_floor_of_pos (-a) (-(Int.negSucc n))
        (by omega)]
      congr 1
      push_cast
      rw [neg_div_neg_eq]
  · exact absurd rfl hb
  · exact fdiv_eq_floor_of_pos a b hpos

/-- C9: with a nonzero divisor, `i64.div_s` pushes the *floor* of the
rational quotient (Python 2's `/` on ints rounds toward negative
infinity), and in particular dividing `-7` by `2` yields `-4`, not the
truncation `-3`. -/
theorem c9_i64_div_s_floors (ctx : Ctx) (m : Machine)
    (av bv : Int) (rest : List Value)
    (hsig : m.sigstack.all sigReprOk = true)
    (hb : ctx.bytes.get? m.pos = some 0x5e)
    (hstack : m.stack = .I64 bv :: .I64 av :: rest)
    (hne : bv ≠ 0) :
    step ctx m =
      .ok { m with
            pos := m.pos + 1
            stack := .I64 ⌊(av : ℚ) / (bv : ℚ)⌋ :: rest } ∧
      Int.fdiv (-7) 2 = -4 := by
  constructor
  · rw [step, hsig]
    simp only [Bool.not_true, Bool.false_eq_true, if_false]
    rw [Reader.read_byte, hb]
    simp [operatorImm, hstack, hne, fdiv_eq_floor av bv hne]
  · decide

/-- C9 witness: `i64.div_s` of `I64(-7)` by `I64(2)` pushes `I64(-4)`. -/
theorem c9_i64_div_s_floors_witness :
    step ⟨[0x5e], [], []⟩ ⟨0, [.I64 2, .I64 (-7)], [], [], []⟩ =
      .ok ⟨1, [.I64 (-4)], [], [], []⟩ := by
  have h := (c9_i64_div_s_floors ⟨[0x5e], [], []⟩
    ⟨0, [.I64 2, .I64 (-7)], [], [], []⟩ (-7) 2 [] rfl rfl rfl
    (by norm_num)).1
  have hfloor : ⌊((-7 : Int) : ℚ) / ((2 : Int) : ℚ)⌋ = -4 := by
    have h27 : ((2 : Int) : ℚ) = ((2 : ℕ) : ℚ) := by norm_num
    rw [h27, Rat.floor_intCast_div_natCast]
    decide
  rw [hfloor] at h
  simpa using h

/-! ### C10: `get_local` has no frame bounds check -/

/-- C10: `get_local n` pushes the local-stack entry `n` positions below
the top (Python `localstack[-1-n]`, i.e. `localstack[len-1-n]`) whenever
that index exists — the only check is against the *whole* local stack,
never against the current frame's parameter-plus-local count, so an
oversized `n` silently reads the calling frame's values. -/
theorem c10_get_local_unchecked (ctx : Ctx) (m : Machine)
    (n pos2 : Nat) (v : Value)
    (hsig : m.sigstack.all sigReprOk = true)
    (hb : ctx.bytes.get? m.pos = some 0x14)
    (hleb : Reader.read_LEB_u ctx.bytes (m.pos + 1) 32 = .ok (n, pos2))
    (hloc : m.localstack.get? n = some v) :
    step ctx m = .ok { m with pos := pos2, stack := v :: m.stack } := by
  have hloc2 : m.localstack[n]? = some v := by
    rw [← List.get?_eq_getElem?]
    exact hloc
  rw [step, hsig]
  simp only [Bool.not_true, Bool.false_eq_true, if_false]
  rw [Reader.read_byte, hb]
  simp [operatorImm, hleb, hloc2]

/-- C10 witness: the running function has one parameter and no locals
(so its frame is the single entry `I32(10)`), yet `get_local 1` succeeds
and reads the *caller's* `I32(20)` instead of failing. -/
theorem c10_get_local_unchecked_witness :
    step ⟨[0x14, 0x01], [], []⟩
        ⟨0, [], [.I32 10, .I32 20], [7],
         [.func ⟨1, .funcref, [.i32], []⟩ 1 [] 0 1 1,
          .func ⟨0, .funcref, [.i32], []⟩ 0 [] 0 1 1]⟩ =
      .ok ⟨2, [.I32 20], [.I32 10, .I32 20], [7],
           [.func ⟨1, .funcref, [.i32], []⟩ 1 [] 0 1 1,
            .func ⟨0, .funcref, [.i32], []⟩ 0 [] 0 1 1]⟩ := by
  exact c10_get_local_unchecked ⟨[0x14, 0x01], [], []⟩
    ⟨0, [], [.I32 10, .I32 20], [7],
     [.func ⟨1, .funcref, [.i32], []⟩ 1 [] 0 1 1,
      .func ⟨0, .funcref, [.i32], []⟩ 0 [] 0 1 1]⟩
    1 2 (.I32 20) rfl rfl rfl rfl

/-! ### C6: `end` (and `else`) with a one-result signature -/

/-- C6: popping a signature-stack entry whose type has exactly one
result on `end` (0x0f) or `else` (0x04): one operand is popped and must
match the result kind — a mismatch is the ResultSignature type error;
on a match, `|params| + |locals|` entries leave the local stack, and
then (a) for a Block execution simply continues past the `end`, while
(b) for a Function the return-address stack is popped: if it becomes
empty the top-level invocation terminates returning the result
(`run_code_v12` yields it), otherwise the reader position becomes the
popped return address and the result is pushed onto the operand
stack. -/
theorem c6_end_one_result (ctx : Ctx) (m : Machine) (op fuel : Nat)
    (blk : Code) (sigrest : List Code) (rk : ValueKind) (v : Value)
    (srest : List Value) (lcl : List ValueKind)
    (hsig : m.sigstack.all sigReprOk = true)
    (hb : ctx.bytes.get? m.pos = some op)
    (hop : op = 0x0f ∨ op = 0x04)
    (hstk : m.sigstack = blk :: sigrest)
    (hlcl : codeLocals blk = .ok lcl)
    (hres : blk.type.results = [rk])
    (hstack : m.stack = v :: srest)
    (hls : blk.type.params.length + lcl.length ≤ m.localstack.length) :
    (v.kind ≠ rk → step ctx m = .err .resultSignature) ∧
    (v.kind = rk →
      (blk.isBlock = true → step ctx m = .ok { m with
          pos := m.pos + 1
          stack := srest
          localstack :=
            m.localstack.drop (blk.type.params.length + lcl.length)
          sigstack := sigrest }) ∧
      (blk.isFunction = true →
        (m.returnstack = [] → step ctx m = .err .indexOutOfRange) ∧
        (∀ r, m.returnstack = [r] →
          step ctx m = .done (some v) ∧
          run_code_v12 ctx (fuel + 1) m = .value (some v)) ∧
        (∀ r r2 rs, m.returnstack = r :: r2 :: rs →
          step ctx m = .ok { m with
            pos := r
            stack := v :: srest
            localstack :=
              m.localstack.drop (blk.type.params.length + lcl.length)
            returnstack := r2 :: rs
            sigstack := sigrest }))) := by
  have hrepr : sigReprOk blk = true := by
    rw [hstk, List.all_cons, Bool.and_eq_true] at hsig
    exact hsig.1
  have hpos : m.pos < ctx.bytes.length := by
    have h2 := List.get?_eq_some.mp hb
    exact h2.choose
  -- one master equation for the step, by cases on the popped entry
  have hfin : ¬(m.pos ≥ ctx.bytes.length) := not_le.mpr hpos
  have hmain : step ctx m =
      (if v.kind = rk then
        (if blk.isFunction then
          (match m.returnstack with
           | [] => StepResult.err .indexOutOfRange
           | r :: rs =>
             if rs = [] then .done (some v)
             else .ok { m with
                        pos := r
                        stack := v :: srest
                        localstack := m.localstack.drop
                          (blk.type.params.length + lcl.length)
                        returnstack := rs
                        sigstack := sigrest })
         else .ok { m with
                    pos := m.pos + 1
                    stack := srest
                    localstack := m.localstack.drop
                      (blk.type.params.length + lcl.length)
                    sigstack := sigrest })
       else .err .resultSignature) := by
    rw [step, hsig]
    simp only [Bool.not_true, Bool.false_eq_true, if_false]
    rw [Reader.read_byte, hb]
    rcases hop with rfl | rfl <;>
    · simp only [step, operatorImm, hstk, hstack, hres, hrepr, hlcl]
      norm_num [popLocals, hls]
      by_cases hvk : v.kind = rk <;> simp [hvk]
  refine ⟨?_, fun heq => ⟨fun hblk => ?_, fun hfunc => ⟨?_, ?_, ?_⟩⟩⟩
  · intro hne
    rw [hmain, if_neg hne]
  · have hnf : blk.isFunction = false := by
      cases blk <;> simp_all [Code.isBlock, Code.isFunction]
    rw [hmain, if_pos heq, hnf]
    simp
  · intro hret
    rw [hmain, if_pos heq, hfunc, hret]
    simp
  · intro r hret
    have hdone : step ctx m = .done (some v) := by
      rw [hmain, if_pos heq, hfunc, hret]
      simp
    refine ⟨hdone, ?_⟩
    rw [run_code_v12, if_neg hfin, hdone]
  · intro r r2 rs hret
    rw [hmain, if_pos heq, hfunc, hret]
    simp

/-- C6 witness: executing the function-terminating `end` with result
`I32(5)` on the operand stack and a singleton return-address stack
terminates the invocation returning `I32(5)`. -/
theorem c6_end_one_result_witness :
    step ⟨[0x0f], [], []⟩ ⟨0, [.I32 5], [], [9], [c6Func]⟩ =
        .done (some (.I32 5)) ∧
      run_code_v12 ⟨[0x0f], [], []⟩ 1 ⟨0, [.I32 5], [], [9], [c6Func]⟩ =
        .value (some (.I32 5)) := by
  have h := c6_end_one_result ⟨[0x0f], [], []⟩
    ⟨0, [.I32 5], [], [9], [c6Func]⟩ 0x0f 0 c6Func [] .i32 (.I32 5) [] []
    rfl rfl (Or.inl rfl) rfl rfl rfl rfl (by decide)
  exact ((h.2 rfl).2 rfl).2.1 9 rfl

/-! ### C4: argument type checking of `call` to a native function -/

/-- `popArgs` succeeds when the popped operands' tags match the
parameter kinds in pop order, returning the arguments in pop order. -/
theorem popArgs_ok (ps : List ValueKind) (ws rest : List Value)
    (hk : ws.map Value.kind = ps) :
    popArgs ps (ws ++ rest) = .ok (ws, rest) := by
  induction ps generalizing ws with
  | nil =>
    cases ws with
    | nil => rfl
    | cons w ws => simp at hk
  | cons p ps ih =>
    cases ws with
    | nil => simp at hk
    | cons w ws =>
      simp only [List.map_cons, List.cons.injEq] at hk
      rw [List.cons_append, popArgs, if_pos hk.1.symm, ih ws hk.2]
      rfl

/-- `popArgs` raises the CallSignature error when some popped operand's
tag differs from the corresponding parameter kind (pop order). -/
theorem popArgs_mismatch (ps : List ValueKind) (ws rest : List Value)
    (hlen : ws.length = ps.length) (hk : ws.map Value.kind ≠ ps) :
    popArgs ps (ws ++ rest) = .error .callSignature := by
  induction ps generalizing ws with
  | nil =>
    cases ws with
    | nil => simp at hk
    | cons w ws => simp at hlen
  | cons p ps ih =>
    cases ws with
    | nil => simp at hlen
    | cons w ws =>
      by_cases hw : p = w.kind
      · have hk2 : ws.map Value.kind ≠ ps := by
          intro h2
          exact hk (by simp [h2, hw])
        rw [List.cons_append, popArgs, if_pos hw,
          ih ws (by simpa using hlen) hk2]
        rfl
      · simp only [List.cons_append, popArgs, if_neg hw]

/-- `pushArgs` succeeds when the arguments' tags match the reversed
parameter kinds elementwise, pushing them onto the local stack so that
the last argument ends up on top. -/
theorem pushArgs_ok (psRev : List ValueKind) (args ls : List Value)
    (hk : args.map Value.kind = psRev) :
    pushArgs psRev args ls = .ok (args.reverse ++ ls) := by
  induction psRev generalizing args ls with
  | nil =>
    cases args with
    | nil => rfl
    | cons w ws => simp at hk
  | cons p ps ih =>
    cases args with
    | nil => simp at hk
    | cons w ws =>
      simp only [List.map_cons, List.cons.injEq] at hk
      rw [pushArgs, if_pos hk.1.symm, ih ws (w :: ls) hk.2]
      simp

/-- `pushArgs` raises the CallSignature error when some argument's tag
differs from the corresponding reversed parameter kind. -/
theorem pushArgs_mismatch (psRev : List ValueKind) (args ls : List Value)
    (hlen : args.length = psRev.length)
    (hk : args.map Value.kind ≠ psRev) :
    pushArgs psRev args ls = .error .callSignature := by
  induction psRev generalizing args ls with
  | nil =>
    cases args with
    | nil => simp at hk
    | cons w ws => simp at hlen
  | cons p ps ih =>
    cases args with
    | nil => simp at hlen
    | cons w ws =>
      by_cases hw : p = w.kind
      · have hk2 : ws.map Value.kind ≠ ps := by
          intro h2
          exact hk (by simp [h2, ← hw])
        rw [pushArgs, if_pos hw, ih ws (w :: ls) (by simpa using hlen) hk2]
      · rw [pushArgs, if_neg hw]

/-- C4 counterexample: a native function of type `(i32, i64) → ()`
called with *correctly typed* arguments — `I32(5)` pushed first for
parameter 0, `I64(7)` pushed second for parameter 1 (second conjunct:
the pushed tags equal the declared kinds in left-to-right parameter
order) — nevertheless raises the CallSignature type error, because the
handler compares `params[0]` against the first *pop* (the last pushed
argument). -/
theorem c4_correct_args_rejected :
    step ⟨[0x16, 0x00], [.func ⟨0, .funcref, [.i32, .i64], []⟩ 0 [] 3 3 3],
          []⟩
        ⟨0, [.I64 7, .I32 5], [], [], []⟩ = .err .callSignature ∧
      ([.I64 7, .I32 5] : List Value).reverse.map Value.kind =
        [.i32, .i64] := by
  exact ⟨rfl, rfl⟩

/-- C4 amended: a `call` to a native function checks the popped
operands against the declared parameter kinds under *both* pairings —
the opcode handler pairs `params[i]` with the i-th pop (reverse push
order), and `call_setup` re-checks the i-th pushed argument against
`params[i]` — so the call proceeds exactly when both hold (for
correctly ordered arguments this forces a tag-palindromic parameter
list), and otherwise raises TypeError(CallSignature). -/
theorem c4_call_native_typecheck (ctx : Ctx) (m : Machine)
    (fidx pos2 : Nat) (t : FuncType) (idx : Nat) (fl : List ValueKind)
    (fs ff flab : Nat) (ws rest : List Value) (zs : List Value)
    (hsig : m.sigstack.all sigReprOk = true)
    (hb : ctx.bytes.get? m.pos = some 0x16)
    (hleb : Reader.read_LEB_u ctx.bytes (m.pos + 1) 32 = .ok (fidx, pos2))
    (hfn : ctx.functions.get? fidx = some (.func t idx fl fs ff flab))
    (hlen : ws.length = t.params.length)
    (hstack : m.stack = ws ++ rest)
    (hzeros : zeroLocals fl = .ok zs) :
    (ws.map Value.kind = t.params ∧ ws.reverse.map Value.kind = t.params →
      step ctx m = .ok
        { pos := fs
          stack := rest
          localstack := ws.reverse ++ (zs ++ m.localstack)
          returnstack := pos2 :: m.returnstack
          sigstack := .func t idx fl fs ff flab :: m.sigstack }) ∧
    (¬(ws.map Value.kind = t.params ∧
        ws.reverse.map Value.kind = t.params) →
      step ctx m = .err .callSignature) := by
  have hfn2 : ctx.functions[fidx]? = some (.func t idx fl fs ff flab) := by
    rw [← List.get?_eq_getElem?]
    exact hfn
  have hmain : ∀ target, step ctx m = target ↔
      (match popArgs t.params m.stack with
       | .error e => StepResult.err e
       | .ok (args, stack1) =>
         match call_setup ctx { m with pos := pos2, stack := stack1 }
             fidx args with
         | .ok m2 => .ok m2
         | .error e => .err e) = target := by
    intro target
    rw [step, hsig]
    simp only [Bool.not_true, Bool.false_eq_true, if_false]
    rw [Reader.read_byte, hb]
    simp [operatorImm, hleb, hfn2, Code.type]
  constructor
  · rintro ⟨h1, h2⟩
    rw [hmain]
    rw [hstack, popArgs_ok t.params ws rest h1]
    have h3 : ws.map Value.kind = t.params.reverse := by
      rw [← h2, List.map_reverse, List.reverse_reverse]
    simp only [call_setup, hfn, hfn2, codeLocals, codeStart, hzeros,
      Code.type, bind, Except.bind]
    rw [pushArgs_ok t.params.reverse ws (zs ++ m.localstack) h3]
  · intro hnot
    rw [hmain, hstack]
    by_cases h1 : ws.map Value.kind = t.params
    · have h2 : ws.reverse.map Value.kind ≠ t.params := by
        intro h2
        exact hnot ⟨h1, h2⟩
      have h3 : ws.map Value.kind ≠ t.params.reverse := by
        intro h3
        apply h2
        rw [List.map_reverse, h3, List.reverse_reverse]
      rw [popArgs_ok t.params ws rest h1]
      simp only [call_setup, hfn, hfn2, codeLocals, codeStart, hzeros,
        Code.type, bind, Except.bind]
      rw [pushArgs_mismatch t.params.reverse ws (zs ++ m.localstack)
        (by simpa using hlen) h3]
    · rw [popArgs_mismatch t.params ws rest hlen h1]

/-- C4 amended, witness: calling `(i32, i64) → ()` with the
*reverse-typed* operand stack `[I32 on top, I64 below]` passes the
handler's reversed check but fails `call_setup`'s straight check — the
call still raises CallSignature, so only palindromic signatures are
callable. -/
theorem c4_call_native_typecheck_witness :
    step ⟨[0x16, 0x00], [.func ⟨0, .funcref, [.i32, .i64], []⟩ 0 [] 3 3 3],
          []⟩
        ⟨0, [.I32 5, .I64 7], [], [], []⟩ = .err .callSignature := by
  have h := c4_call_native_typecheck
    ⟨[0x16, 0x00], [.func ⟨0, .funcref, [.i32, .i64], []⟩ 0 [] 3 3 3], []⟩
    ⟨0, [.I32 5, .I64 7], [], [], []⟩ 0 2 ⟨0, .funcref, [.i32, .i64], []⟩
    0 [] 3 3 3 [.I32 5, .I64 7] [] []
    rfl rfl rfl rfl rfl rfl rfl
  exact h.2 (by decide)

/-! ### C8: `read_LEB` overflow and sign extension -/

/-- The loop raises the LEB overflow exactly when, with `rm` remaining
allowed continuation bytes, the next `rm + 1` bytes all exist and are
continuation bytes. -/
theorem readLEBLoop_overflow (bytes : List Nat) (rm : Nat) :
    ∀ (pos shift result : Nat),
      (Reader.readLEBLoop bytes rm pos shift result =
          .error .lebOverflow ↔
        allCont bytes pos (rm + 1) = true) := by
  induction rm with
  | zero =>
    intro pos shift result
    rw [Reader.readLEBLoop]
    cases hg : bytes.get? pos with
    | none => simp [allCont, isContByte, ← List.get?_eq_getElem?, hg]
    | some b =>
      by_cases hc : natBit b 7 = 0 <;>
        simp [allCont, isContByte, ← List.get?_eq_getElem?, hg, hc]
  | succ rm ih =>
    intro pos shift result
    rw [Reader.readLEBLoop]
    cases hg : bytes.get? pos with
    | none => simp [allCont, isContByte, ← List.get?_eq_getElem?, hg]
    | some b =>
      by_cases hc : natBit b 7 = 0 <;>
        simp [allCont, isContByte, ← List.get?_eq_getElem?, hg, hc, ih]

/-- When a terminator arrives within the allowed bound, the loop
succeeds, ending right past the terminator with `7k` added to the
shift, and hands back the terminating byte. -/
theorem readLEBLoop_term (bytes : List Nat) (k : Nat) :
    ∀ (rm pos shift result : Nat), termAt bytes pos k = true → k ≤ rm →
      ∃ r, Reader.readLEBLoop bytes rm pos shift result =
        .ok (r, bytes.getD (pos + k) 0, shift + 7 * k, pos + k + 1) := by
  induction k with
  | zero =>
    intro rm pos shift result hterm hk
    rw [termAt] at hterm
    simp only [allCont, Bool.true_and, Nat.add_zero] at hterm
    cases hg : bytes.get? pos with
    | none => rw [hg] at hterm; cases hterm
    | some b =>
      rw [hg] at hterm
      have hc : natBit b 7 = 0 := by simpa using hterm
      refine ⟨result + b % 0x80 * 2 ^ shift, ?_⟩
      have hgd : bytes.getD (pos + 0) 0 = b := by
        rw [List.getD_eq_getElem?_getD, ← List.get?_eq_getElem?,
          Nat.add_zero, hg]
        rfl
      rw [Reader.readLEBLoop, hg]
      simp [hc, hgd]
      rw [← List.get?_eq_getElem?, hg]
      rfl
  | succ k ih =>
    intro rm pos shift result hterm hk
    match rm, hk with
    | rm + 1, _ =>
      rw [termAt, allCont, Bool.and_assoc] at hterm
      rw [Bool.and_eq_true] at hterm
      have hcont := hterm.1
      have hrest : termAt bytes (pos + 1) k = true := by
        rw [termAt]
        have : pos + (k + 1) = pos + 1 + k := by omega
        rw [this] at hterm
        exact hterm.2
      rw [isContByte] at hcont
      cases hg : bytes.get? pos with
      | none => rw [hg] at hcont; cases hcont
      | some b =>
        rw [hg] at hcont
        have hc : natBit b 7 ≠ 0 := by simpa using hcont
        obtain ⟨r, hr⟩ := ih rm (pos + 1) (shift + 7)
          (result + b % 0x80 * 2 ^ shift) hrest (by omega)
        refine ⟨r, ?_⟩
        have h1 : pos + 1 + k = pos + (k + 1) := by omega
        have h2 : shift + 7 + 7 * k = shift + 7 * (k + 1) := by omega
        rw [h1, h2] at hr
        rw [Reader.readLEBLoop, hg]
        simp only [hc, if_false, hr]

/-- C8: `read_LEB` fails with the LEB overflow exactly when more than
`ceil(maxbits/7)` continuation bytes arrive (first conjunct); a value
terminating within that bound decodes without error, consuming `k+1`
bytes (second conjunct), and the decoded result is negative — i.e. the
accumulated payload was sign-extended — precisely when decoding is
signed, the final byte's `0x40` bit is set, and the accumulated shift
`7k` is below `maxbits`. -/
theorem c8_read_LEB_overflow_and_sign (bytes : List Nat)
    (pos maxbits : Nat) (signed : Bool) :
    (Reader.read_LEB bytes pos maxbits signed = .error .lebOverflow ↔
      allCont bytes pos ((maxbits + 6) / 7 + 1) = true) ∧
    (∀ k, termAt bytes pos k = true → k ≤ (maxbits + 6) / 7 →
      ∃ res pos2, Reader.read_LEB bytes pos maxbits signed =
          .ok (res, pos2) ∧ pos2 = pos + k + 1 ∧
        (res < 0 ↔ (signed = true ∧ 7 * k < maxbits ∧
          natBit (bytes.getD (pos + k) 0) 6 = 1))) := by
  constructor
  · rw [Reader.read_LEB]
    cases hloop : Reader.readLEBLoop bytes ((maxbits + 6) / 7) pos 0 0 with
    | error e =>
      rw [← readLEBLoop_overflow bytes ((maxbits + 6) / 7) pos 0 0, hloop]
      constructor
      · intro h
        simp only [bind, Except.bind] at h
        cases h
        rfl
      · intro h
        cases h
        rfl
    | ok r4 =>
      rw [← readLEBLoop_overflow bytes ((maxbits + 6) / 7) pos 0 0, hloop]
      constructor
      · intro h
        obtain ⟨r, b, s, p⟩ := r4
        simp only [bind, Except.bind] at h
        by_cases hs : signed = true ∧ s < maxbits ∧ natBit b 6 = 1 <;>
          simp [hs] at h
      · intro h
        cases h
  · intro k hterm hk
    obtain ⟨r, hr⟩ := readLEBLoop_term bytes k ((maxbits + 6) / 7)
      pos 0 0 hterm hk
    rw [Reader.read_LEB, hr]
    simp only [Nat.zero_add, bind, Except.bind]
    by_cases hs : signed = true ∧ 7 * k < maxbits ∧
        natBit (bytes.getD (pos + k) 0) 6 = 1
    · refine ⟨((r % 2 ^ (7 * k) : Nat) : Int) - 2 ^ (7 * k),
        pos + k + 1, ?_, rfl, ?_⟩
      · rw [if_pos hs]
      · have hlt : ((r % 2 ^ (7 * k) : Nat) : Int) < 2 ^ (7 * k) := by
          exact_mod_cast Nat.mod_lt r (Nat.pos_pow_of_pos _ (by norm_num))
        constructor
        · intro _
          exact hs
        · intro _
          omega
    · refine ⟨(r : Int), pos + k + 1, ?_, rfl, ?_⟩
      · rw [if_neg hs]
      · constructor
        · intro hneg
          exact absurd hneg (not_lt.mpr (Int.natCast_nonneg r))
        · intro hcond
          exact absurd hcond hs

/-- C8 witness: six continuation bytes overflow a 32-bit LEB read
(bound `ceil(32/7) = 5`); the single signed byte `0xc1` decodes without
error to a negative (sign-extended) value. -/
theorem c8_read_LEB_witness :
    Reader.read_LEB [0x80, 0x80, 0x80, 0x80, 0x80, 0x80] 0 32 false =
        .error .lebOverflow ∧
      ∃ res pos2, Reader.read_LEB [0x41] 0 32 true = .ok (res, pos2) ∧
        res < 0 := by
  constructor
  · exact (c8_read_LEB_overflow_and_sign
      [0x80, 0x80, 0x80, 0x80, 0x80, 0x80] 0 32 false).1.mpr (by decide)
  · obtain ⟨res, pos2, hok, _, hneg⟩ :=
      (c8_read_LEB_overflow_and_sign [0x41] 0 32 true).2 0
        (by decide) (by decide)
    exact ⟨res, pos2, hok, hneg.mpr (by decide)⟩

end Warpy
